import Mathlib

/-!
Verification of the path-function library of `src/manim/utils/paths.py`.

Points are 3-component real vectors; point collections are lists of such
vectors.  The helpers `OUT`, `interpolate`, `normalize` and `rotation_matrix`
are imported by `paths.py` from modules that are not part of the sources at
hand, so they are modelled from the specification (sections 4.1 and 4.2);
everything else is translated directly from `paths.py`.
-/

/-- A 3D point or vector (numpy row of length 3). -/
structure V3 where
  x : ℝ
  y : ℝ
  z : ℝ

theorem V3.ext_iff {a b : V3} : a = b ↔ a.x = b.x ∧ a.y = b.y ∧ a.z = b.z := by
  cases a
  cases b
  simp

@[ext]
theorem V3.ext {a b : V3} (hx : a.x = b.x) (hy : a.y = b.y) (hz : a.z = b.z) : a = b :=
  V3.ext_iff.mpr ⟨hx, hy, hz⟩

instance : Zero V3 := ⟨⟨0, 0, 0⟩⟩

instance : Inhabited V3 := ⟨0⟩

instance : Add V3 := ⟨fun a b => ⟨a.x + b.x, a.y + b.y, a.z + b.z⟩⟩

instance : Sub V3 := ⟨fun a b => ⟨a.x - b.x, a.y - b.y, a.z - b.z⟩⟩

instance : Neg V3 := ⟨fun a => ⟨-a.x, -a.y, -a.z⟩⟩

instance : SMul ℝ V3 := ⟨fun r a => ⟨r * a.x, r * a.y, r * a.z⟩⟩

@[simp] theorem V3.zero_x : (0 : V3).x = 0 := rfl

@[simp] theorem V3.zero_y : (0 : V3).y = 0 := rfl

@[simp] theorem V3.zero_z : (0 : V3).z = 0 := rfl

@[simp] theorem V3.add_x (a b : V3) : (a + b).x = a.x + b.x := rfl

@[simp] theorem V3.add_y (a b : V3) : (a + b).y = a.y + b.y := rfl

@[simp] theorem V3.add_z (a b : V3) : (a + b).z = a.z + b.z := rfl

@[simp] theorem V3.sub_x (a b : V3) : (a - b).x = a.x - b.x := rfl

@[simp] theorem V3.sub_y (a b : V3) : (a - b).y = a.y - b.y := rfl

@[simp] theorem V3.sub_z (a b : V3) : (a - b).z = a.z - b.z := rfl

@[simp] theorem V3.neg_x (a : V3) : (-a).x = -a.x := rfl

@[simp] theorem V3.neg_y (a : V3) : (-a).y = -a.y := rfl

@[simp] theorem V3.neg_z (a : V3) : (-a).z = -a.z := rfl

@[simp] theorem V3.smul_x (r : ℝ) (a : V3) : (r • a).x = r * a.x := rfl

@[simp] theorem V3.smul_y (r : ℝ) (a : V3) : (r • a).y = r * a.y := rfl

@[simp] theorem V3.smul_z (r : ℝ) (a : V3) : (r • a).z = r * a.z := rfl

/-- Euclidean inner product of two 3-vectors (numpy `np.dot` on rows). -/
def dot3 (a b : V3) : ℝ := a.x * b.x + a.y * b.y + a.z * b.z

/-- Cross product of two 3-vectors (numpy `np.cross`). -/
def cross3 (a b : V3) : V3 :=
  ⟨a.y * b.z - a.z * b.y, a.z * b.x - a.x * b.z, a.x * b.y - a.y * b.x⟩

/-- Euclidean norm (numpy `np.linalg.norm`). -/
noncomputable def norm3 (v : V3) : ℝ := Real.sqrt (dot3 v v)

namespace Manim

/-- Modelled from the spec: the conventional out-of-plane unit vector `OUT`
from `manim/constants.py` (not under `src/`), the default rotation axis. -/
def OUT : V3 := ⟨0, 0, 1⟩

/-- Modelled from the spec (section 4.1): `normalize(v, fall_back)` from
`manim/utils/space_ops.py` (not under `src/`) scales `v` to unit length and
silently substitutes `fall_back` when `v` has zero magnitude. -/
noncomputable def normalize (v fall_back : V3) : V3 :=
  if norm3 v = 0 then fall_back else (1 / norm3 v) • v

/-- Modelled from the spec (section 4.1): the Rodrigues rotation matrix of
`manim/utils/space_ops.py` (not under `src/`) — identity times cosine plus
skew of the axis times sine plus outer product of the axis times
(1 - cosine) — applied to the vector `v`.  `paths.py` applies the matrix to
each point row via `np.dot(points, rot_matrix.T)`. -/
noncomputable def rotation_matrix_apply (angle : ℝ) (axis v : V3) : V3 :=
  Real.cos angle • v + Real.sin angle • cross3 axis v
    + ((1 - Real.cos angle) * dot3 axis v) • axis

/-- Modelled from the spec (section 4.2): `interpolate` from
`manim/utils/bezier.py` (not under `src/`): `start + alpha * (end - start)`
applied to every coordinate. -/
noncomputable def interpolate (start_v end_v : V3) (alpha : ℝ) : V3 :=
  start_v + alpha • (end_v - start_v)

/-- `STRAIGHT_PATH_THRESHOLD = 0.01` (paths.py line 30). -/
def STRAIGHT_PATH_THRESHOLD : ℝ := 0.01

/-- `straight_path` (paths.py lines 33-76): returns `interpolate`. -/
noncomputable def straight_path : V3 → V3 → ℝ → V3 := interpolate

/-- Pointwise action of the path returned by `path_along_circles`
(paths.py lines 79-155), with the center supplied for the point. -/
noncomputable def path_along_circles (arc_angle : ℝ) (circles_centers axis : V3) :
    V3 → V3 → ℝ → V3 := fun start_points end_points alpha =>
  let unit_axis := normalize axis OUT
  let detransformed_end_points :=
    circles_centers + rotation_matrix_apply (-arc_angle) unit_axis
      (end_points - circles_centers)
  circles_centers + rotation_matrix_apply (alpha * arc_angle) unit_axis
    (interpolate start_points detransformed_end_points alpha - circles_centers)

/-- The divisor `np.tan(arc_angle / 2)` of paths.py line 218. -/
noncomputable def arc_tan_divisor (arc_angle : ℝ) : ℝ := Real.tan (arc_angle / 2)

/-- The per-point center computed inside the closure of `path_along_arc`
(paths.py lines 215-218): the chord midpoint, offset — whenever
`arc_angle != np.pi` — by `np.cross(unit_axis, vects / 2) / np.tan(arc_angle / 2)`. -/
noncomputable def arc_center (arc_angle : ℝ) (unit_axis start_points end_points : V3) : V3 :=
  let vects := end_points - start_points
  let centers := start_points + (0.5 : ℝ) • vects
  if arc_angle ≠ Real.pi then
    centers + (1 / arc_tan_divisor arc_angle) • cross3 unit_axis ((1 / 2 : ℝ) • vects)
  else centers

/-- `path_along_arc` (paths.py lines 158-222): below the small-angle
threshold it returns `straight_path()`; otherwise each point is rotated by
`alpha * arc_angle` about its per-point center. -/
noncomputable def path_along_arc (arc_angle : ℝ) (axis : V3) : V3 → V3 → ℝ → V3 :=
  if |arc_angle| < STRAIGHT_PATH_THRESHOLD then straight_path
  else fun start_points end_points alpha =>
    let unit_axis := normalize axis OUT
    let centers := arc_center arc_angle unit_axis start_points end_points
    centers + rotation_matrix_apply (alpha * arc_angle) unit_axis (start_points - centers)

/-- `clockwise_path` (paths.py lines 225-268): `path_along_arc(-np.pi)`. -/
noncomputable def clockwise_path : V3 → V3 → ℝ → V3 := path_along_arc (-Real.pi) OUT

/-- `counterclockwise_path` (paths.py lines 271-314): `path_along_arc(np.pi)`. -/
noncomputable def counterclockwise_path : V3 → V3 → ℝ → V3 := path_along_arc Real.pi OUT

/-- `spiral_path` (paths.py lines 317-377). -/
noncomputable def spiral_path (angle : ℝ) (axis : V3) : V3 → V3 → ℝ → V3 :=
  if |angle| < STRAIGHT_PATH_THRESHOLD then straight_path
  else fun start_points end_points alpha =>
    start_points + alpha • rotation_matrix_apply ((alpha - 1) * angle)
      (normalize axis OUT) (end_points - start_points)

/-- A pointwise path function mapped over two aligned point collections. -/
noncomputable def evalPath (f : V3 → V3 → ℝ → V3) (s e : List V3) (a : ℝ) : List V3 :=
  (s.zip e).map fun p => f p.1 p.2 a

/-- Numpy broadcasting on the leading axis of two `(n, 3)` arrays: equal
lengths are aligned elementwise, a length-1 operand is repeated, and any
other mismatch raises a `ValueError`. -/
def broadcast_points (s e : List V3) : Option (List V3 × List V3) :=
  if s.length = e.length then some (s, e)
  else if s.length = 1 then some (List.replicate e.length s.headI, e)
  else if e.length = 1 then some (s, List.replicate s.length e.headI)
  else none

/-- Calling a path function on two point collections with numpy's
elementwise broadcasting semantics: `none` models the raised `ValueError`. -/
noncomputable def apply_path (f : V3 → V3 → ℝ → V3) (s e : List V3) (a : ℝ) :
    Option (List V3) :=
  (broadcast_points s e).map fun q => evalPath f q.1 q.2 a

/-- Reflection of `p` across the chord line through `s` and `e` (the
geometric predicate used by the spec's mirror-image property). -/
noncomputable def reflect_across_chord (s e p : V3) : V3 :=
  s + (2 * (dot3 (p - s) (e - s) / dot3 (e - s) (e - s))) • (e - s) - (p - s)

/-! Basic facts about the modelled primitives. -/

theorem interpolate_at_zero (s e : V3) : interpolate s e 0 = s := by
  ext <;> simp [interpolate]

theorem interpolate_at_one (s e : V3) : interpolate s e 1 = e := by
  ext <;> simp [interpolate]

theorem interpolate_self (p : V3) (a : ℝ) : interpolate p p a = p := by
  ext <;> simp [interpolate]

theorem dot3_nonneg_self (v : V3) : 0 ≤ dot3 v v := by
  have hx := mul_self_nonneg v.x
  have hy := mul_self_nonneg v.y
  have hz := mul_self_nonneg v.z
  simp only [dot3]
  linarith

theorem norm3_sq (v : V3) : norm3 v * norm3 v = dot3 v v := by
  simpa [norm3] using Real.mul_self_sqrt (dot3_nonneg_self v)

theorem normalize_unit (v fb : V3) (hfb : dot3 fb fb = 1) :
    dot3 (normalize v fb) (normalize v fb) = 1 := by
  by_cases h : norm3 v = 0
  · simp [normalize, h, hfb]
  · have hs := norm3_sq v
    simp only [normalize, h, if_false, dot3, V3.smul_x, V3.smul_y, V3.smul_z]
    field_simp
    simp only [dot3] at hs
    linarith [hs]

theorem dot3_OUT_self : dot3 OUT OUT = 1 := by
  simp [dot3, OUT]

theorem normalize_OUT_unit (v : V3) :
    dot3 (normalize v OUT) (normalize v OUT) = 1 :=
  normalize_unit v OUT dot3_OUT_self

theorem norm3_zero : norm3 (0 : V3) = 0 := by
  simp [norm3, dot3]

theorem normalize_zero_vec : normalize (0 : V3) OUT = OUT := by
  simp [normalize, norm3_zero]

theorem norm3_OUT : norm3 OUT = 1 := by
  simp [norm3, dot3, OUT]

theorem normalize_OUT : normalize OUT OUT = OUT := by
  simp only [normalize, norm3_OUT]
  norm_num
  ext <;> simp [OUT]

/-- Rotation by a zero angle is the identity. -/
theorem rotation_matrix_apply_zero_angle (u v : V3) :
    rotation_matrix_apply 0 u v = v := by
  ext <;> simp [rotation_matrix_apply, cross3, dot3]

/-- Any rotation fixes the zero vector. -/
theorem rotation_matrix_apply_zero_vec (angle : ℝ) (u : V3) :
    rotation_matrix_apply angle u 0 = 0 := by
  ext <;> simp [rotation_matrix_apply, cross3, dot3]

/-- Rotating forward after rotating backward returns the input (the axis
being a unit vector). -/
theorem rotation_matrix_apply_comp_neg (angle : ℝ) (u v : V3) (hu : dot3 u u = 1) :
    rotation_matrix_apply angle u (rotation_matrix_apply (-angle) u v) = v := by
  simp only [dot3] at hu
  set c := Real.cos angle with hc
  set s := Real.sin angle with hs
  have hcs : s ^ 2 + c ^ 2 = 1 := Real.sin_sq_add_cos_sq angle
  have hD : u.x * v.x + u.y * v.y + u.z * v.z = dot3 u v := rfl
  ext <;>
    simp only [rotation_matrix_apply, Real.cos_neg, Real.sin_neg, ← hc, ← hs,
      cross3, dot3, V3.add_x, V3.add_y, V3.add_z, V3.smul_x, V3.smul_y, V3.smul_z]
  · linear_combination (v.x - u.x * (u.x * v.x + u.y * v.y + u.z * v.z)) * hcs +
      (v.x * s ^ 2 + u.x * (u.x * v.x + u.y * v.y + u.z * v.z) * (1 - c) ^ 2) * hu
  · linear_combination (v.y - u.y * (u.x * v.x + u.y * v.y + u.z * v.z)) * hcs +
      (v.y * s ^ 2 + u.y * (u.x * v.x + u.y * v.y + u.z * v.z) * (1 - c) ^ 2) * hu
  · linear_combination (v.z - u.z * (u.x * v.x + u.y * v.y + u.z * v.z)) * hcs +
      (v.z * s ^ 2 + u.z * (u.x * v.x + u.y * v.y + u.z * v.z) * (1 - c) ^ 2) * hu

/-- Rotation about a unit axis preserves the squared norm. -/
theorem rotation_matrix_apply_dot_self (angle : ℝ) (u v : V3) (hu : dot3 u u = 1) :
    dot3 (rotation_matrix_apply angle u v) (rotation_matrix_apply angle u v)
      = dot3 v v := by
  simp only [dot3] at hu
  set c := Real.cos angle with hc
  set s := Real.sin angle with hs
  have hcs : s ^ 2 + c ^ 2 = 1 := Real.sin_sq_add_cos_sq angle
  simp only [rotation_matrix_apply, ← hc, ← hs, cross3, dot3,
    V3.add_x, V3.add_y, V3.add_z, V3.smul_x, V3.smul_y, V3.smul_z]
  linear_combination
    ((v.x * v.x + v.y * v.y + v.z * v.z) -
        (u.x * v.x + u.y * v.y + u.z * v.z) ^ 2) * hcs +
      (s ^ 2 * (v.x * v.x + v.y * v.y + v.z * v.z) +
        (1 - c) ^ 2 * (u.x * v.x + u.y * v.y + u.z * v.z) ^ 2) * hu

/-- The chord identity behind `path_along_arc`: with `t * sin = 1 + cos` and
`t * (1 - cos) = sin` (the half-angle relations for `t = 1 / tan(angle/2)`),
rotating `-w - t (u x w)` by the full angle lands on `w - t (u x w)`,
provided the half-chord `w` is perpendicular to the unit axis `u`. -/
theorem rotation_matrix_apply_chord (angle t : ℝ) (u w : V3)
    (hu : dot3 u u = 1) (hd : dot3 u w = 0)
    (h1 : t * Real.sin angle = 1 + Real.cos angle)
    (h2 : t * (1 - Real.cos angle) = Real.sin angle) :
    rotation_matrix_apply angle u (-w - t • cross3 u w)
      = w - t • cross3 u w := by
  simp only [dot3] at hu hd
  set c := Real.cos angle with hc
  set s := Real.sin angle with hs
  ext <;>
    simp only [rotation_matrix_apply, ← hc, ← hs, cross3, dot3,
      V3.add_x, V3.add_y, V3.add_z, V3.sub_x, V3.sub_y, V3.sub_z,
      V3.neg_x, V3.neg_y, V3.neg_z, V3.smul_x, V3.smul_y, V3.smul_z]
  · linear_combination w.x * h1 + (w.x * s * t) * hu +
      (u.y * w.z - u.z * w.y) * h2 +
      (u.x * (c - s * t - 1)) * hd
  · linear_combination w.y * h1 + (w.y * s * t) * hu +
      (u.z * w.x - u.x * w.z) * h2 +
      (u.y * (c - s * t - 1)) * hd
  · linear_combination w.z * h1 + (w.z * s * t) * hu +
      (u.x * w.y - u.y * w.x) * h2 +
      (u.z * (c - s * t - 1)) * hd

/-- The half-turn version of the chord identity: when the full angle has
cosine `-1` and sine `0`, rotating `-w` about a unit axis perpendicular to
`w` lands on `w`. -/
theorem rotation_matrix_apply_chord_pi (angle : ℝ) (u w : V3)
    (hd : dot3 u w = 0) (hcos : Real.cos angle = -1) (hsin : Real.sin angle = 0) :
    rotation_matrix_apply angle u (-w) = w := by
  simp only [dot3] at hd
  ext <;>
    simp only [rotation_matrix_apply, hcos, hsin, cross3, dot3,
      V3.add_x, V3.add_y, V3.add_z, V3.neg_x, V3.neg_y, V3.neg_z,
      V3.smul_x, V3.smul_y, V3.smul_z]
  · linear_combination (-2 * u.x) * hd
  · linear_combination (-2 * u.y) * hd
  · linear_combination (-2 * u.z) * hd

theorem dot3_smul_right (r : ℝ) (a b : V3) : dot3 a (r • b) = r * dot3 a b := by
  simp [dot3]
  ring

/-- Unfolding of `path_along_arc` above the small-angle threshold. -/
theorem path_along_arc_apply (arc_angle : ℝ) (axis : V3)
    (h : ¬ |arc_angle| < STRAIGHT_PATH_THRESHOLD) (s e : V3) (a : ℝ) :
    path_along_arc arc_angle axis s e a
      = arc_center arc_angle (normalize axis OUT) s e
        + rotation_matrix_apply (a * arc_angle) (normalize axis OUT)
            (s - arc_center arc_angle (normalize axis OUT) s e) := by
  rw [path_along_arc, if_neg h]

theorem straight_path_at_zero (s e : V3) : straight_path s e 0 = s :=
  interpolate_at_zero s e

theorem straight_path_at_one (s e : V3) : straight_path s e 1 = e :=
  interpolate_at_one s e

theorem straight_path_self (p : V3) (a : ℝ) : straight_path p p a = p :=
  interpolate_self p a

theorem path_along_arc_at_zero (arc_angle : ℝ) (axis s e : V3) :
    path_along_arc arc_angle axis s e 0 = s := by
  by_cases h : |arc_angle| < STRAIGHT_PATH_THRESHOLD
  · rw [path_along_arc, if_pos h]
    exact straight_path_at_zero s e
  · rw [path_along_arc_apply arc_angle axis h, zero_mul,
      rotation_matrix_apply_zero_angle]
    ext <;> simp

/-- Double-angle expression of the cosine of the full arc angle. -/
theorem cos_of_half (angle : ℝ) :
    Real.cos angle = 2 * Real.cos (angle / 2) ^ 2 - 1 := by
  have h := Real.cos_two_mul (angle / 2)
  rw [show 2 * (angle / 2) = angle by ring] at h
  exact h

/-- Double-angle expression of the sine of the full arc angle. -/
theorem sin_of_half (angle : ℝ) :
    Real.sin angle = 2 * Real.sin (angle / 2) * Real.cos (angle / 2) := by
  have h := Real.sin_two_mul (angle / 2)
  rw [show 2 * (angle / 2) = angle by ring] at h
  exact h

/-- `path_along_arc` reaches `end_points` at `alpha = 1` provided the chord
is perpendicular to the unit axis and the arc angle is not a multiple of
`2 * pi`. -/
theorem path_along_arc_at_one (arc_angle : ℝ) (axis s e : V3)
    (hd : dot3 (normalize axis OUT) (e - s) = 0)
    (hsin : Real.sin (arc_angle / 2) ≠ 0) :
    path_along_arc arc_angle axis s e 1 = e := by
  by_cases h : |arc_angle| < STRAIGHT_PATH_THRESHOLD
  · rw [path_along_arc, if_pos h]
    exact straight_path_at_one s e
  · rw [path_along_arc_apply arc_angle axis h, one_mul]
    set u := normalize axis OUT with hu_def
    set w : V3 := (1 / 2 : ℝ) • (e - s) with hw
    have hdw : dot3 u w = 0 := by
      rw [hw, dot3_smul_right, hd, mul_zero]
    by_cases hpi : arc_angle = Real.pi
    · have hcenter : arc_center arc_angle u s e = s + w := by
        rw [arc_center, if_neg (by simp [hpi])]
        ext <;> simp only [hw, V3.add_x, V3.add_y, V3.add_z, V3.sub_x, V3.sub_y,
          V3.sub_z, V3.smul_x, V3.smul_y, V3.smul_z] <;> ring
      have hsw : s - arc_center arc_angle u s e = -w := by
        rw [hcenter]
        ext <;> simp
      rw [hsw, hcenter, hpi, rotation_matrix_apply_chord_pi Real.pi u w hdw
        Real.cos_pi Real.sin_pi]
      ext <;> simp only [hw, V3.add_x, V3.add_y, V3.add_z, V3.sub_x, V3.sub_y,
        V3.sub_z, V3.smul_x, V3.smul_y, V3.smul_z] <;> ring
    · rw [arc_center, if_pos (by simpa using hpi)]
      set t : ℝ := 1 / arc_tan_divisor arc_angle with ht
      have hcenter :
          (s + (0.5 : ℝ) • (e - s)
              + t • cross3 u ((1 / 2 : ℝ) • (e - s)))
            = s + w + t • cross3 u w := by
        ext <;> simp only [hw, V3.add_x, V3.add_y, V3.add_z, V3.sub_x, V3.sub_y,
          V3.sub_z, V3.smul_x, V3.smul_y, V3.smul_z] <;> ring
      rw [hcenter]
      have hsw : s - (s + w + t • cross3 u w) = -w - t • cross3 u w := by
        ext <;> simp <;> ring
      rw [hsw]
      have hsin2 := sin_of_half arc_angle
      have hcos2 := cos_of_half arc_angle
      by_cases hc0 : Real.cos (arc_angle / 2) = 0
      · have ht0 : t = 0 := by
          rw [ht, arc_tan_divisor, Real.tan_eq_sin_div_cos, hc0, div_zero, div_zero]
        have hcos : Real.cos arc_angle = -1 := by
          rw [hcos2, hc0]
          norm_num
        have hsin' : Real.sin arc_angle = 0 := by
          rw [hsin2, hc0, mul_zero]
        have hzero : -w - t • cross3 u w = -w := by
          rw [ht0]
          ext <;> simp
        rw [hzero, rotation_matrix_apply_chord_pi arc_angle u w hdw hcos hsin']
        rw [ht0]
        ext <;> simp only [hw, V3.add_x, V3.add_y, V3.add_z, V3.sub_x, V3.sub_y,
          V3.sub_z, V3.smul_x, V3.smul_y, V3.smul_z, V3.zero_x, V3.zero_y,
          V3.zero_z, zero_mul, mul_zero, add_zero, zero_smul] <;> ring
      · have htval : t = Real.cos (arc_angle / 2) / Real.sin (arc_angle / 2) := by
          rw [ht, arc_tan_divisor, Real.tan_eq_sin_div_cos, one_div_div]
        have h1 : t * Real.sin arc_angle = 1 + Real.cos arc_angle := by
          rw [htval, hsin2, hcos2]
          field_simp
          ring
        have h2 : t * (1 - Real.cos arc_angle) = Real.sin arc_angle := by
          rw [htval, hsin2, hcos2]
          field_simp
          linear_combination (-2 * Real.cos (arc_angle / 2)) *
            Real.sin_sq_add_cos_sq (arc_angle / 2)
        rw [rotation_matrix_apply_chord arc_angle t u w
          (normalize_OUT_unit axis) hdw h1 h2]
        ext <;> simp only [hw, V3.add_x, V3.add_y, V3.add_z, V3.sub_x, V3.sub_y,
          V3.sub_z, V3.smul_x, V3.smul_y, V3.smul_z] <;> ring

/-- `path_along_arc` is stationary on a coincident start/end pair. -/
theorem path_along_arc_self (arc_angle : ℝ) (axis p : V3) (a : ℝ) :
    path_along_arc arc_angle axis p p a = p := by
  by_cases h : |arc_angle| < STRAIGHT_PATH_THRESHOLD
  · rw [path_along_arc, if_pos h]
    exact straight_path_self p a
  · rw [path_along_arc_apply arc_angle axis h]
    have hc : arc_center arc_angle (normalize axis OUT) p p = p := by
      rw [arc_center]
      split <;> ext <;>
        simp only [cross3, V3.add_x, V3.add_y, V3.add_z, V3.sub_x, V3.sub_y,
          V3.sub_z, V3.smul_x, V3.smul_y, V3.smul_z] <;> ring
    rw [hc]
    have hpp : p - p = (0 : V3) := by
      ext <;> simp
    rw [hpp, rotation_matrix_apply_zero_vec]
    ext <;> simp

theorem path_along_circles_at_zero (arc_angle : ℝ) (c axis s e : V3) :
    path_along_circles arc_angle c axis s e 0 = s := by
  rw [path_along_circles]
  simp only [interpolate_at_zero, zero_mul, rotation_matrix_apply_zero_angle]
  ext <;> simp

theorem path_along_circles_at_one (arc_angle : ℝ) (c axis s e : V3) :
    path_along_circles arc_angle c axis s e 1 = e := by
  rw [path_along_circles]
  simp only [interpolate_at_one, one_mul]
  have hmid :
      c + rotation_matrix_apply (-arc_angle) (normalize axis OUT) (e - c) - c
        = rotation_matrix_apply (-arc_angle) (normalize axis OUT) (e - c) := by
    ext <;> simp
  rw [hmid, rotation_matrix_apply_comp_neg arc_angle (normalize axis OUT) (e - c)
    (normalize_OUT_unit axis)]
  ext <;> simp

/-- Unfolding of `spiral_path` above the small-angle threshold. -/
theorem spiral_path_apply (angle : ℝ) (axis : V3)
    (h : ¬ |angle| < STRAIGHT_PATH_THRESHOLD) (s e : V3) (a : ℝ) :
    spiral_path angle axis s e a
      = s + a • rotation_matrix_apply ((a - 1) * angle) (normalize axis OUT) (e - s) := by
  rw [spiral_path, if_neg h]

theorem spiral_path_at_zero (angle : ℝ) (axis s e : V3) :
    spiral_path angle axis s e 0 = s := by
  by_cases h : |angle| < STRAIGHT_PATH_THRESHOLD
  · rw [spiral_path, if_pos h]
    exact straight_path_at_zero s e
  · rw [spiral_path_apply angle axis h]
    ext <;> simp

theorem spiral_path_at_one (angle : ℝ) (axis s e : V3) :
    spiral_path angle axis s e 1 = e := by
  by_cases h : |angle| < STRAIGHT_PATH_THRESHOLD
  · rw [spiral_path, if_pos h]
    exact straight_path_at_one s e
  · rw [spiral_path_apply angle axis h,
      show ((1 : ℝ) - 1) * angle = 0 by ring, rotation_matrix_apply_zero_angle]
    ext <;> simp

theorem spiral_path_self (angle : ℝ) (axis p : V3) (a : ℝ) :
    spiral_path angle axis p p a = p := by
  by_cases h : |angle| < STRAIGHT_PATH_THRESHOLD
  · rw [spiral_path, if_pos h]
    exact straight_path_self p a
  · rw [spiral_path_apply angle axis h]
    have hpp : p - p = (0 : V3) := by
      ext <;> simp
    rw [hpp, rotation_matrix_apply_zero_vec]
    ext <;> simp

/-! List-level lemmas for mapping pointwise facts over point collections. -/

theorem zip_map_fst (f : V3 → V3 → V3) (hf : ∀ x y, f x y = x) :
    ∀ (s e : List V3), s.length = e.length →
      (s.zip e).map (fun p => f p.1 p.2) = s := by
  intro s
  induction s with
  | nil => intro e _; simp
  | cons a t ih =>
    intro e h
    cases e with
    | nil => simp at h
    | cons b t2 =>
      simp only [List.zip_cons_cons, List.map_cons]
      exact congrArg₂ List.cons (hf a b) (ih t2 (by simpa using h))

theorem zip_map_snd (f : V3 → V3 → V3) (hf : ∀ x y, f x y = y) :
    ∀ (s e : List V3), s.length = e.length →
      (s.zip e).map (fun p => f p.1 p.2) = e := by
  intro s
  induction s with
  | nil =>
    intro e h
    cases e with
    | nil => simp
    | cons b t2 => simp at h
  | cons a t ih =>
    intro e h
    cases e with
    | nil => simp at h
    | cons b t2 =>
      simp only [List.zip_cons_cons, List.map_cons]
      exact congrArg₂ List.cons (hf a b) (ih t2 (by simpa using h))

theorem zip_map_snd_of_mem (f : V3 → V3 → V3) :
    ∀ (s e : List V3), s.length = e.length →
      (∀ p ∈ s.zip e, f p.1 p.2 = p.2) →
      (s.zip e).map (fun p => f p.1 p.2) = e := by
  intro s
  induction s with
  | nil =>
    intro e h _
    cases e with
    | nil => simp
    | cons b t2 => simp at h
  | cons a t ih =>
    intro e h hmem
    cases e with
    | nil => simp at h
    | cons b t2 =>
      simp only [List.zip_cons_cons, List.map_cons]
      rw [hmem (a, b) (by simp), ih t2 (by simpa using h)
        (fun p hp => hmem p (by simp [hp]))]

theorem zip_map_diag (f : V3 → V3 → V3) (hf : ∀ x, f x x = x) (s : List V3) :
    (s.zip s).map (fun p => f p.1 p.2) = s := by
  induction s with
  | nil => simp
  | cons a t ih =>
    simp only [List.zip_cons_cons, List.map_cons]
    exact congrArg₂ List.cons (hf a) ih

theorem evalPath_congr (f : V3 → V3 → ℝ → V3) (a : ℝ) (g : V3 × V3 → V3)
    (h : ∀ x y, f x y a = g (x, y)) (s e : List V3) :
    evalPath f s e a = (s.zip e).map g := by
  unfold evalPath
  have hfun : (fun p : V3 × V3 => f p.1 p.2 a) = g := by
    funext p
    rw [h p.1 p.2]
  exact congrArg (fun fn => List.map fn (s.zip e)) hfun

/-! Explicit value of the half-turn arcs at `alpha = 1/2`. -/

theorem not_small_pi : ¬ |Real.pi| < STRAIGHT_PATH_THRESHOLD := by
  rw [abs_of_pos Real.pi_pos, STRAIGHT_PATH_THRESHOLD]
  push_neg
  nlinarith [Real.pi_gt_three]

theorem not_small_neg_pi : ¬ |(-Real.pi)| < STRAIGHT_PATH_THRESHOLD := by
  rw [abs_neg]
  exact not_small_pi

theorem neg_pi_ne_pi : (-Real.pi) ≠ Real.pi := by
  intro h
  nlinarith [Real.pi_pos]

theorem arc_tan_divisor_neg_pi : arc_tan_divisor (-Real.pi) = 0 := by
  rw [arc_tan_divisor, show (-Real.pi) / 2 = -(Real.pi / 2) by ring,
    Real.tan_neg, Real.tan_pi_div_two, neg_zero]

/-- The point reached at `alpha = 1/2` by the counterclockwise half-turn:
the chord midpoint shifted by the quarter-turned half-chord. -/
theorem path_along_arc_pi_at_half (s e : V3) :
    path_along_arc Real.pi OUT s e (1 / 2)
      = ⟨s.x + (e.x - s.x) / 2 + (e.y - s.y) / 2,
         s.y + (e.y - s.y) / 2 - (e.x - s.x) / 2,
         s.z⟩ := by
  rw [path_along_arc_apply Real.pi OUT not_small_pi, normalize_OUT,
    arc_center, if_neg (by simp)]
  rw [show (1 / 2 : ℝ) * Real.pi = Real.pi / 2 by ring]
  ext <;>
    simp only [rotation_matrix_apply, Real.cos_pi_div_two, Real.sin_pi_div_two,
      cross3, dot3, OUT, V3.add_x, V3.add_y, V3.add_z, V3.sub_x, V3.sub_y,
      V3.sub_z, V3.smul_x, V3.smul_y, V3.smul_z] <;> ring

/-- The point reached at `alpha = 1/2` by the clockwise half-turn. -/
theorem path_along_arc_neg_pi_at_half (s e : V3) :
    path_along_arc (-Real.pi) OUT s e (1 / 2)
      = ⟨s.x + (e.x - s.x) / 2 - (e.y - s.y) / 2,
         s.y + (e.y - s.y) / 2 + (e.x - s.x) / 2,
         s.z⟩ := by
  rw [path_along_arc_apply (-Real.pi) OUT not_small_neg_pi, normalize_OUT,
    arc_center, if_pos (by simpa using neg_pi_ne_pi), arc_tan_divisor_neg_pi]
  rw [show (1 / 2 : ℝ) * (-Real.pi) = -(Real.pi / 2) by ring]
  ext <;>
    simp only [rotation_matrix_apply, Real.cos_neg, Real.sin_neg,
      Real.cos_pi_div_two, Real.sin_pi_div_two, cross3, dot3, OUT,
      V3.add_x, V3.add_y, V3.add_z, V3.sub_x, V3.sub_y, V3.sub_z,
      V3.smul_x, V3.smul_y, V3.smul_z, div_zero] <;> ring

/-! Claim theorems. -/

/-- Claim C6 (confirmed): for every angle with `|angle| < 0.01`, the
constructors `path_along_arc(angle)` and `spiral_path(angle)` each return
exactly the straight-line path function `straight_path()`, so their outputs
coincide with `straight_path()`'s on every input. -/
theorem small_angle_returns_straight (angle : ℝ) (axis : V3)
    (h : |angle| < (0.01 : ℝ)) :
    path_along_arc angle axis = straight_path
      ∧ spiral_path angle axis = straight_path := by
  have h' : |angle| < STRAIGHT_PATH_THRESHOLD := by
    rw [STRAIGHT_PATH_THRESHOLD]
    exact h
  constructor
  · rw [path_along_arc, if_pos h']
  · rw [spiral_path, if_pos h']

/-- Witness for C6 at the concrete angle `0`. -/
theorem small_angle_returns_straight_witness :
    |(0 : ℝ)| < (0.01 : ℝ)
      ∧ (path_along_arc 0 OUT = straight_path
          ∧ spiral_path 0 OUT = straight_path) := by
  have h : |(0 : ℝ)| < (0.01 : ℝ) := by norm_num
  exact ⟨h, small_angle_returns_straight 0 OUT h⟩

/-- Claim C7 (confirmed): `straight_path()` maps each corresponding pair of
points to `s + alpha * (e - s)` independently in every coordinate, for every
real `alpha` (also outside `[0, 1]`); stated for arbitrary aligned
collections, so in particular for equal-length ones. -/
theorem straight_path_formula (s e : List V3) (a : ℝ) :
    evalPath straight_path s e a
      = (s.zip e).map (fun p =>
          V3.mk (p.1.x + a * (p.2.x - p.1.x)) (p.1.y + a * (p.2.y - p.1.y))
            (p.1.z + a * (p.2.z - p.1.z))) := by
  refine evalPath_congr _ _ _ (fun x y => ?_) s e
  ext <;> simp [straight_path, interpolate]

/-- Claim C9 (confirmed): constructing `path_along_arc`, `path_along_circles`
or `spiral_path` with a zero-length axis yields exactly the same path
function as constructing it with the default out-of-plane axis `OUT`. -/
theorem zero_axis_same_as_OUT (arc_angle angle : ℝ) (c : V3) :
    path_along_arc arc_angle (0 : V3) = path_along_arc arc_angle OUT
    ∧ path_along_circles arc_angle c (0 : V3) = path_along_circles arc_angle c OUT
    ∧ spiral_path angle (0 : V3) = spiral_path angle OUT := by
  have hax : normalize (0 : V3) OUT = normalize OUT OUT := by
    rw [normalize_zero_vec, normalize_OUT]
  refine ⟨?_, ?_, ?_⟩
  · unfold path_along_arc
    rw [hax]
  · unfold path_along_circles
    rw [hax]
  · unfold spiral_path
    rw [hax]

/-- Claim C2 counterexample: with caller-supplied center `(0,0,0)`, the path
function of `path_along_circles(pi)` moves the coincident start/end point
`(1,0,0)` away from itself at `alpha = 1/2` (it orbits the center), so not
every path function fixes a degenerate input. -/
theorem path_along_circles_degenerate_cex :
    path_along_circles Real.pi (0 : V3) OUT ⟨1, 0, 0⟩ ⟨1, 0, 0⟩ (1 / 2)
      ≠ (⟨1, 0, 0⟩ : V3) := by
  have hval : path_along_circles Real.pi (0 : V3) OUT ⟨1, 0, 0⟩ ⟨1, 0, 0⟩ (1 / 2)
      = (0 : V3) := by
    rw [path_along_circles]
    simp only [normalize_OUT]
    have hdetr : (0 : V3) + rotation_matrix_apply (-Real.pi) OUT
        ((⟨1, 0, 0⟩ : V3) - (0 : V3)) = ⟨-1, 0, 0⟩ := by
      ext <;>
        simp [rotation_matrix_apply, cross3, dot3, OUT, Real.cos_neg,
          Real.sin_neg, Real.cos_pi, Real.sin_pi]
    rw [hdetr]
    have hmid : interpolate ⟨1, 0, 0⟩ ⟨-1, 0, 0⟩ (1 / 2) - (0 : V3) = (0 : V3) := by
      ext <;> simp [interpolate] <;> norm_num
    rw [hmid, rotation_matrix_apply_zero_vec]
    ext <;> simp
  rw [hval]
  intro hEq
  rw [V3.ext_iff] at hEq
  norm_num at hEq

/-- Claim C2 (amended): on a degenerate input (`start == end == p`
pointwise) the straight, arc (hence clockwise/counterclockwise) and spiral
path functions return exactly `p` for every real `alpha`; `path_along_circles`
does so at `alpha = 0` and `alpha = 1`, but at intermediate `alpha` it orbits
each point about its supplied center (see the counterexample). -/
theorem paths_degenerate_input (s : List V3) (arc_angle angle : ℝ) (c axis : V3)
    (a : ℝ) :
    evalPath straight_path s s a = s
    ∧ evalPath (path_along_arc arc_angle axis) s s a = s
    ∧ evalPath (spiral_path angle axis) s s a = s
    ∧ evalPath (path_along_circles arc_angle c axis) s s 0 = s
    ∧ evalPath (path_along_circles arc_angle c axis) s s 1 = s := by
  refine ⟨?_, ?_, ?_, ?_, ?_⟩ <;> simp only [evalPath]
  · exact zip_map_diag (fun x y => straight_path x y a)
      (fun p => straight_path_self p a) s
  · exact zip_map_diag (fun x y => path_along_arc arc_angle axis x y a)
      (fun p => path_along_arc_self arc_angle axis p a) s
  · exact zip_map_diag (fun x y => spiral_path angle axis x y a)
      (fun p => spiral_path_self angle axis p a) s
  · exact zip_map_diag (fun x y => path_along_circles arc_angle c axis x y 0)
      (fun p => path_along_circles_at_zero arc_angle c axis p p) s
  · exact zip_map_diag (fun x y => path_along_circles arc_angle c axis x y 1)
      (fun p => path_along_circles_at_one arc_angle c axis p p) s

/-- Claim C5 counterexample: a length-1 collection against a length-2
collection is not rejected — numpy broadcasting silently repeats the single
point (the straight path at `alpha = 0` then returns the repeated starts). -/
theorem broadcast_mismatch_cex :
    apply_path straight_path [(0 : V3)] [(0 : V3), OUT] 0
      = some [(0 : V3), (0 : V3)] := by
  rw [apply_path, broadcast_points]
  norm_num
  rw [List.replicate]
  rw [List.replicate]
  rw [List.replicate]
  simp [evalPath, straight_path_at_zero]

/-- Claim C5 (amended): calling any path function with start/end collections
of unequal lengths fails at call time with an invalid-argument error
(`ValueError`), unless one of the collections has length 1, in which case
numpy broadcasting silently repeats it instead (see the counterexample). -/
theorem apply_path_mismatch_fails (f : V3 → V3 → ℝ → V3) (s e : List V3) (a : ℝ)
    (hne : s.length ≠ e.length) (hs : s.length ≠ 1) (he : e.length ≠ 1) :
    apply_path f s e a = none := by
  rw [apply_path, broadcast_points, if_neg hne, if_neg hs, if_neg he]
  rfl

/-- Witness for C5 at concrete collections of lengths 2 and 3. -/
theorem apply_path_mismatch_fails_witness :
    (([(0 : V3), OUT] : List V3).length ≠ ([(0 : V3), OUT, OUT] : List V3).length
      ∧ ([(0 : V3), OUT] : List V3).length ≠ 1
      ∧ ([(0 : V3), OUT, OUT] : List V3).length ≠ 1)
    ∧ apply_path straight_path [(0 : V3), OUT] [(0 : V3), OUT, OUT] 0 = none := by
  have h1 : ([(0 : V3), OUT] : List V3).length ≠ ([(0 : V3), OUT, OUT] : List V3).length := by
    simp
  have h2 : ([(0 : V3), OUT] : List V3).length ≠ 1 := by simp
  have h3 : ([(0 : V3), OUT, OUT] : List V3).length ≠ 1 := by simp
  exact ⟨⟨h1, h2, h3⟩, apply_path_mismatch_fails straight_path _ _ 0 h1 h2 h3⟩

/-- Claim C10 (confirmed): above the small-angle threshold, every point
output by `path_along_arc` stays at constant distance from the per-point
center computed inside the closure — each point moves on a circle of fixed
radius about that center, for every real `alpha`. -/
theorem arc_radius_invariant (arc_angle : ℝ) (h : (0.01 : ℝ) ≤ |arc_angle|)
    (axis s e : V3) (a : ℝ) :
    norm3 (path_along_arc arc_angle axis s e a
        - arc_center arc_angle (normalize axis OUT) s e)
      = norm3 (s - arc_center arc_angle (normalize axis OUT) s e) := by
  have h' : ¬ |arc_angle| < STRAIGHT_PATH_THRESHOLD := by
    rw [STRAIGHT_PATH_THRESHOLD, not_lt]
    exact h
  rw [path_along_arc_apply _ _ h']
  have hsub : arc_center arc_angle (normalize axis OUT) s e
      + rotation_matrix_apply (a * arc_angle) (normalize axis OUT)
          (s - arc_center arc_angle (normalize axis OUT) s e)
      - arc_center arc_angle (normalize axis OUT) s e
      = rotation_matrix_apply (a * arc_angle) (normalize axis OUT)
          (s - arc_center arc_angle (normalize axis OUT) s e) := by
    ext <;> simp
  rw [hsub, norm3, norm3,
    rotation_matrix_apply_dot_self _ _ _ (normalize_OUT_unit axis)]

/-- Witness for C10 at `arc_angle = pi`, the default axis, concrete points
and `alpha = 1/2`. -/
theorem arc_radius_invariant_witness :
    (0.01 : ℝ) ≤ |Real.pi|
    ∧ norm3 (path_along_arc Real.pi OUT (0 : V3) OUT (1 / 2)
          - arc_center Real.pi (normalize OUT OUT) (0 : V3) OUT)
        = norm3 ((0 : V3) - arc_center Real.pi (normalize OUT OUT) (0 : V3) OUT) := by
  have h : (0.01 : ℝ) ≤ |Real.pi| := by
    rw [abs_of_pos Real.pi_pos]
    nlinarith [Real.pi_gt_three]
  exact ⟨h, arc_radius_invariant Real.pi h OUT (0 : V3) OUT (1 / 2)⟩

/-- Claim C1 counterexample: with the default axis `OUT`, the path function
of `path_along_arc(pi)` applied to the chord from `(0,0,0)` to `(0,0,1)`
(parallel to the axis) returns the start point at `alpha = 1`, not the end
point — the endpoint contract fails for `path_along_arc`. -/
theorem path_along_arc_endpoint_cex :
    evalPath (path_along_arc Real.pi OUT) [⟨0, 0, 0⟩] [⟨0, 0, 1⟩] 1
      ≠ [(⟨0, 0, 1⟩ : V3)] := by
  have hval : path_along_arc Real.pi OUT ⟨0, 0, 0⟩ ⟨0, 0, 1⟩ 1 = ⟨0, 0, 0⟩ := by
    rw [path_along_arc_apply _ _ not_small_pi, normalize_OUT, arc_center,
      if_neg (by simp), one_mul]
    ext <;>
      simp [rotation_matrix_apply, cross3, dot3, OUT, Real.cos_pi,
        Real.sin_pi] <;>
      norm_num
  simp only [evalPath, List.zip_cons_cons, List.zip_nil_right, List.map_cons,
    List.map_nil]
  rw [hval]
  intro hEq
  have hx := List.head_eq_of_cons_eq hEq
  rw [V3.ext_iff] at hx
  norm_num at hx

/-- Claim C1 (amended): on equal-length collections, `straight_path`,
`spiral_path` and `path_along_circles` return `start` at `alpha = 0` and
`end` at `alpha = 1`; `path_along_arc` (and hence `clockwise_path` and
`counterclockwise_path`) returns `start` at `alpha = 0` always, but returns
`end` at `alpha = 1` only when every chord is perpendicular to the unit
rotation axis and the arc angle is not a multiple of `2 * pi` (see the
counterexample for an axis-parallel chord). -/
theorem paths_endpoint_contract (s e : List V3) (h : s.length = e.length)
    (arc_angle angle : ℝ) (c axis : V3) :
    (evalPath straight_path s e 0 = s ∧ evalPath straight_path s e 1 = e)
    ∧ (evalPath (spiral_path angle axis) s e 0 = s
        ∧ evalPath (spiral_path angle axis) s e 1 = e)
    ∧ (evalPath (path_along_circles arc_angle c axis) s e 0 = s
        ∧ evalPath (path_along_circles arc_angle c axis) s e 1 = e)
    ∧ evalPath (path_along_arc arc_angle axis) s e 0 = s
    ∧ ((∀ p ∈ s.zip e, dot3 (normalize axis OUT) (p.2 - p.1) = 0) →
        Real.sin (arc_angle / 2) ≠ 0 →
        evalPath (path_along_arc arc_angle axis) s e 1 = e) := by
  refine ⟨⟨?_, ?_⟩, ⟨?_, ?_⟩, ⟨?_, ?_⟩, ?_, ?_⟩ <;> simp only [evalPath]
  · exact zip_map_fst (fun x y => straight_path x y 0)
      (fun x y => straight_path_at_zero x y) s e h
  · exact zip_map_snd (fun x y => straight_path x y 1)
      (fun x y => straight_path_at_one x y) s e h
  · exact zip_map_fst (fun x y => spiral_path angle axis x y 0)
      (fun x y => spiral_path_at_zero angle axis x y) s e h
  · exact zip_map_snd (fun x y => spiral_path angle axis x y 1)
      (fun x y => spiral_path_at_one angle axis x y) s e h
  · exact zip_map_fst (fun x y => path_along_circles arc_angle c axis x y 0)
      (fun x y => path_along_circles_at_zero arc_angle c axis x y) s e h
  · exact zip_map_snd (fun x y => path_along_circles arc_angle c axis x y 1)
      (fun x y => path_along_circles_at_one arc_angle c axis x y) s e h
  · exact zip_map_fst (fun x y => path_along_arc arc_angle axis x y 0)
      (fun x y => path_along_arc_at_zero arc_angle axis x y) s e h
  · intro hperp hsin
    exact zip_map_snd_of_mem (fun x y => path_along_arc arc_angle axis x y 1)
      s e h
      (fun p hp => path_along_arc_at_one arc_angle axis p.1 p.2 (hperp p hp) hsin)

/-- Witness for C1 at concrete singleton collections, `arc_angle = angle = pi`,
center `(0,0,0)` and the default axis. -/
theorem paths_endpoint_contract_witness :
    ([(⟨1, 0, 0⟩ : V3)] : List V3).length = ([(⟨0, 1, 0⟩ : V3)] : List V3).length
    ∧ ((evalPath straight_path [⟨1, 0, 0⟩] [⟨0, 1, 0⟩] 0 = [⟨1, 0, 0⟩]
          ∧ evalPath straight_path [⟨1, 0, 0⟩] [⟨0, 1, 0⟩] 1 = [⟨0, 1, 0⟩])
        ∧ (evalPath (spiral_path Real.pi OUT) [⟨1, 0, 0⟩] [⟨0, 1, 0⟩] 0 = [⟨1, 0, 0⟩]
            ∧ evalPath (spiral_path Real.pi OUT) [⟨1, 0, 0⟩] [⟨0, 1, 0⟩] 1 = [⟨0, 1, 0⟩])
        ∧ (evalPath (path_along_circles Real.pi (0 : V3) OUT) [⟨1, 0, 0⟩] [⟨0, 1, 0⟩] 0
              = [⟨1, 0, 0⟩]
            ∧ evalPath (path_along_circles Real.pi (0 : V3) OUT) [⟨1, 0, 0⟩] [⟨0, 1, 0⟩] 1
              = [⟨0, 1, 0⟩])
        ∧ evalPath (path_along_arc Real.pi OUT) [⟨1, 0, 0⟩] [⟨0, 1, 0⟩] 0 = [⟨1, 0, 0⟩]
        ∧ ((∀ p ∈ ([(⟨1, 0, 0⟩ : V3)] : List V3).zip [(⟨0, 1, 0⟩ : V3)],
              dot3 (normalize OUT OUT) (p.2 - p.1) = 0) →
            Real.sin (Real.pi / 2) ≠ 0 →
            evalPath (path_along_arc Real.pi OUT) [⟨1, 0, 0⟩] [⟨0, 1, 0⟩] 1
              = [⟨0, 1, 0⟩])) :=
  ⟨rfl, paths_endpoint_contract [⟨1, 0, 0⟩] [⟨0, 1, 0⟩] rfl Real.pi Real.pi 0 OUT⟩

/-- Claim C3 counterexample: for the planar chord from `(0,0,0)` to
`(2,0,0)`, `path_along_arc(pi)` at `alpha = 1/2` returns `(1,-1,0)` — the
top of the semicircle — not the chord midpoint `(1,0,0)`. -/
theorem arc_pi_midpoint_cex :
    evalPath (path_along_arc Real.pi OUT) [⟨0, 0, 0⟩] [⟨2, 0, 0⟩] (1 / 2)
      ≠ [(0.5 : ℝ) • ((⟨0, 0, 0⟩ : V3) + ⟨2, 0, 0⟩)] := by
  simp only [evalPath, List.zip_cons_cons, List.zip_nil_right, List.map_cons,
    List.map_nil]
  rw [path_along_arc_pi_at_half]
  intro hEq
  have hx := List.head_eq_of_cons_eq hEq
  rw [V3.ext_iff] at hx
  simp at hx

/-- Claim C3 (amended): `path_along_arc(pi)` at `alpha = 1/2` returns, for
each pair, the chord midpoint displaced by the quarter-turned half-chord:
`(s+e)/2 - cross(OUT, (e-s)/2) - dot(OUT, (e-s)/2) * OUT`; it equals the
chord midpoint `(s+e)/2` itself only when `s = e`. -/
theorem arc_pi_midpoint_formula (s e : List V3) :
    evalPath (path_along_arc Real.pi OUT) s e (1 / 2)
      = (s.zip e).map (fun p =>
          (0.5 : ℝ) • (p.1 + p.2)
            - cross3 OUT ((0.5 : ℝ) • (p.2 - p.1))
            - (dot3 OUT ((0.5 : ℝ) • (p.2 - p.1))) • OUT) := by
  refine evalPath_congr _ _ _ (fun x y => ?_) s e
  rw [path_along_arc_pi_at_half]
  ext <;>
    simp only [cross3, dot3, OUT, V3.add_x, V3.add_y, V3.add_z, V3.sub_x,
      V3.sub_y, V3.sub_z, V3.smul_x, V3.smul_y, V3.smul_z] <;> ring

/-- Claim C4 counterexample: at `arc_angle = 2 * pi` (a legal argument, well
above the small-angle threshold and different from `pi`), the divisor
`tan(arc_angle / 2)` of the center offset is exactly zero in real
arithmetic, and the resulting path collapses: at `alpha = 1` it returns the
start point instead of the end point. -/
theorem arc_tan_divisor_cex :
    arc_tan_divisor (2 * Real.pi) = 0
    ∧ path_along_arc (2 * Real.pi) OUT ⟨1, 0, 0⟩ ⟨0, 1, 0⟩ 1 = ⟨1, 0, 0⟩ := by
  have hdiv : arc_tan_divisor (2 * Real.pi) = 0 := by
    rw [arc_tan_divisor, show (2 * Real.pi) / 2 = Real.pi by ring, Real.tan_pi]
  refine ⟨hdiv, ?_⟩
  have hns : ¬ |2 * Real.pi| < STRAIGHT_PATH_THRESHOLD := by
    rw [abs_of_pos (by positivity), STRAIGHT_PATH_THRESHOLD]
    push_neg
    nlinarith [Real.pi_gt_three]
  have hne : (2 * Real.pi) ≠ Real.pi := by
    intro hEq
    nlinarith [Real.pi_pos]
  rw [path_along_arc_apply _ _ hns, normalize_OUT, arc_center,
    if_pos (by simpa using hne), hdiv, one_mul]
  ext <;>
    simp [rotation_matrix_apply, Real.cos_two_pi, Real.sin_two_pi, cross3,
      dot3, OUT]

/-- Claim C4 (amended): the divisor `tan(arc_angle / 2)` used by
`path_along_arc`'s center offset is a nonzero well-defined real for every
`arc_angle` that is not an integer multiple of `pi`; the `arc_angle = pi`
case is excluded by the code's own branch, but at nonzero even multiples of
`pi` (e.g. `2 * pi`) the exact divisor vanishes — the floating-point code
avoids dividing by exactly zero only because `np.pi` is not exactly `pi`. -/
theorem arc_tan_divisor_nonzero (arc_angle : ℝ)
    (h : ∀ k : ℤ, arc_angle ≠ k * Real.pi) :
    arc_tan_divisor arc_angle ≠ 0 := by
  rw [arc_tan_divisor]
  intro h0
  rcases Real.tan_eq_zero_iff.mp h0 with ⟨k, hk⟩
  exact h k (by linarith)

/-- Witness for C4 at the concrete angle `pi / 2`. -/
theorem arc_tan_divisor_nonzero_witness :
    (∀ k : ℤ, Real.pi / 2 ≠ k * Real.pi) ∧ arc_tan_divisor (Real.pi / 2) ≠ 0 := by
  have hk : ∀ k : ℤ, Real.pi / 2 ≠ k * Real.pi := by
    intro k hEq
    have h2 : Real.pi * (1 - 2 * (k : ℝ)) = 0 := by linear_combination 2 * hEq
    rcases mul_eq_zero.mp h2 with h | h
    · exact Real.pi_ne_zero h
    · have h3 : (2 * k : ℝ) = 1 := by linarith
      have h4 : (2 * k : ℤ) = 1 := by exact_mod_cast h3
      omega
  exact ⟨hk, arc_tan_divisor_nonzero _ hk⟩

/-- Claim C8 counterexample: for the non-planar chord from `(0,0,0)` to
`(1,0,1)`, the `alpha = 1/2` outputs of `clockwise_path()` and
`counterclockwise_path()` are not reflections of each other across the
chord. -/
theorem clockwise_mirror_cex :
    reflect_across_chord ⟨0, 0, 0⟩ ⟨1, 0, 1⟩
        (clockwise_path ⟨0, 0, 0⟩ ⟨1, 0, 1⟩ (1 / 2))
      ≠ counterclockwise_path ⟨0, 0, 0⟩ ⟨1, 0, 1⟩ (1 / 2) := by
  rw [clockwise_path, counterclockwise_path, path_along_arc_neg_pi_at_half,
    path_along_arc_pi_at_half]
  intro hEq
  rw [V3.ext_iff] at hEq
  simp [reflect_across_chord, dot3] at hEq

/-- Claim C8 (amended): for every start/end pair whose chord is
perpendicular to the default axis `OUT` (the planar case), the `alpha = 1/2`
outputs of `clockwise_path()` and `counterclockwise_path()` are reflections
of each other across the chord; for chords with a component along the axis
this fails (see the counterexample). -/
theorem clockwise_ccw_mirror (s e : V3) (h : dot3 OUT (e - s) = 0) :
    reflect_across_chord s e (clockwise_path s e (1 / 2))
      = counterclockwise_path s e (1 / 2) := by
  have hz : e.z = s.z := by
    simp [dot3, OUT] at h
    linarith
  rw [clockwise_path, counterclockwise_path, path_along_arc_neg_pi_at_half,
    path_along_arc_pi_at_half, reflect_across_chord]
  by_cases hD : dot3 (e - s) (e - s) = 0
  · have hx : e.x = s.x := by
      simp only [dot3, V3.sub_x, V3.sub_y, V3.sub_z] at hD
      nlinarith [mul_self_nonneg (e.x - s.x), mul_self_nonneg (e.y - s.y),
        mul_self_nonneg (e.z - s.z)]
    have hy : e.y = s.y := by
      simp only [dot3, V3.sub_x, V3.sub_y, V3.sub_z] at hD
      nlinarith [mul_self_nonneg (e.x - s.x), mul_self_nonneg (e.y - s.y),
        mul_self_nonneg (e.z - s.z)]
    ext <;> simp [dot3, hx, hy, hz]
  · have hD2 : dot3 (e - s) (e - s)
        = (e.x - s.x) * (e.x - s.x) + (e.y - s.y) * (e.y - s.y) := by
      simp only [dot3, V3.sub_x, V3.sub_y, V3.sub_z]
      rw [hz]
      ring
    have hnum : dot3 ((⟨s.x + (e.x - s.x) / 2 - (e.y - s.y) / 2,
          s.y + (e.y - s.y) / 2 + (e.x - s.x) / 2, s.z⟩ : V3) - s) (e - s)
        = ((e.x - s.x) * (e.x - s.x) + (e.y - s.y) * (e.y - s.y)) / 2 := by
      simp only [dot3, V3.sub_x, V3.sub_y, V3.sub_z]
      rw [hz]
      ring
    have hDz : (e.x - s.x) * (e.x - s.x) + (e.y - s.y) * (e.y - s.y) ≠ 0 := by
      intro h0
      exact hD (by rw [hD2]; exact h0)
    rw [hnum, hD2]
    have hone : 2 * (((e.x - s.x) * (e.x - s.x) + (e.y - s.y) * (e.y - s.y)) / 2
        / ((e.x - s.x) * (e.x - s.x) + (e.y - s.y) * (e.y - s.y))) = 1 := by
      field_simp
    rw [hone]
    ext <;>
      simp only [V3.add_x, V3.add_y, V3.add_z, V3.sub_x, V3.sub_y, V3.sub_z,
        V3.smul_x, V3.smul_y, V3.smul_z, hz] <;>
      ring

/-- Witness for C8 at the concrete planar pair `(0,0,0)`, `(2,0,0)`. -/
theorem clockwise_ccw_mirror_witness :
    dot3 OUT ((⟨2, 0, 0⟩ : V3) - ⟨0, 0, 0⟩) = 0
    ∧ reflect_across_chord ⟨0, 0, 0⟩ ⟨2, 0, 0⟩
          (clockwise_path ⟨0, 0, 0⟩ ⟨2, 0, 0⟩ (1 / 2))
        = counterclockwise_path ⟨0, 0, 0⟩ ⟨2, 0, 0⟩ (1 / 2) := by
  have h : dot3 OUT ((⟨2, 0, 0⟩ : V3) - ⟨0, 0, 0⟩) = 0 := by
    simp [dot3, OUT]
  exact ⟨h, clockwise_ccw_mirror ⟨0, 0, 0⟩ ⟨2, 0, 0⟩ h⟩

end Manim
